import Mathlib

/-!
Verification of the documentation content extractor in `pkg/typegen/scraper.go`.

The extractor receives a parsed HTML document and an optional symbol name
(`funcName`), and produces an extracted text/HTML blob or a typed failure.
We embed the DOM as an inductive tree and translate each Go function into a
Lean function of the same name.  Network fetching, URL validation and the
crawler library are external collaborators; what we model is the
deterministic document-processing behaviour of one successful fetch: the
callbacks `colly` fires on a parsed document are, per registered selector
(in registration order), applied to every matching element in document
order.  goquery conventions followed by the embedding:

* `Selection.Text()` concatenates the text of all descendant text nodes;
* `Selection.Html()` renders the inner HTML of the element;
* `Selection.Next()` walks following sibling *elements* (text nodes are
  skipped);
* `Selection.Find(sel)` matches proper descendants in document order;
* `Selection.Attr(k)` yields the empty string when `k` is absent;
* `goquery.NodeName` is the tag for elements and `#text` for text nodes.

`strings.Contains`, `strings.TrimSpace` and `strings.ToLower` are modelled
by `goContains`, `goTrim` and `goToLower` (the latter two are the ASCII
approximations of the Unicode originals; no claim in scope depends on
non-ASCII whitespace or case folding).
-/

namespace Scrape

/-- A DOM node: an element with a tag, an attribute list and children, or a
text node. -/
inductive Node where
  | text (s : String)
  | elem (tag : String) (attrs : List (String × String)) (children : List Node)

/-- `goquery.NodeName`: the tag of an element, `#text` for a text node. -/
def tagOf : Node → String
  | .text _ => "#text"
  | .elem t _ _ => t

/-- Whether a node is an element (selections in goquery only ever hold
element nodes). -/
def isElemNode : Node → Bool
  | .elem .. => true
  | .text _ => false

/-- First attribute with the given key, if present. -/
def lookupAttr : Node → String → Option String
  | .text _, _ => none
  | .elem _ attrs _, k => attrs.lookup k

/-- `Selection.Attr`: Go callers of `s.Attr(k)` in this file discard the
`exists` flag, so a missing attribute is the empty string. -/
def getAttr (n : Node) (k : String) : String := (lookupAttr n k).getD ""

/-- Character-list prefix test (executable). -/
def listPrefixOf : List Char → List Char → Bool
  | [], _ => true
  | _ :: _, [] => false
  | a :: as, b :: bs => a == b && listPrefixOf as bs

/-- Character-list substring test (executable). -/
def listInfixOf (sub : List Char) : List Char → Bool
  | [] => listPrefixOf sub []
  | c :: rest => listPrefixOf sub (c :: rest) || listInfixOf sub rest

/-- Model of Go `strings.Contains s sub`. -/
def goContains (s sub : String) : Bool := listInfixOf sub.data s.data

/-- Model of Go `strings.TrimSpace`. -/
def goTrim (s : String) : String :=
  ⟨((s.data.dropWhile Char.isWhitespace).reverse.dropWhile Char.isWhitespace).reverse⟩

/-- Model of Go `strings.ToLower` (ASCII case folding). -/
def goToLower (s : String) : String := ⟨s.data.map Char.toLower⟩

/-- Whitespace-separated words of a character list (model of Go
`strings.Fields`, the splitting cascadia applies to `class` attribute
values). -/
def fieldsAux : List Char → List Char → List String
  | [], acc => if acc.isEmpty then [] else [⟨acc.reverse⟩]
  | c :: cs, acc =>
    if c.isWhitespace then
      (if acc.isEmpty then [] else [(⟨acc.reverse⟩ : String)]) ++ fieldsAux cs []
    else fieldsAux cs (c :: acc)

/-- Whitespace-separated words of a string. -/
def fieldsOf (s : String) : List String := fieldsAux s.data []

/-- Concatenation of the images of a list, in order; models sequential
appends to the scraper's `strings.Builder`. -/
def joinMap (f : α → String) : List α → String
  | [] => ""
  | x :: xs => f x ++ joinMap f xs

/-- Attribute rendering used by `html.Render`. -/
def renderAttrs (attrs : List (String × String)) : String :=
  joinMap (fun kv => " " ++ kv.1 ++ "=\"" ++ kv.2 ++ "\"") attrs

mutual

/-- HTML serialisation of one node. -/
def renderNode : Node → String
  | .text s => s
  | .elem t attrs cs =>
    "<" ++ t ++ renderAttrs attrs ++ ">" ++ renderList cs ++ "</" ++ t ++ ">"

/-- HTML serialisation of a node list. -/
def renderList : List Node → String
  | [] => ""
  | n :: ns => renderNode n ++ renderList ns

end

/-- `Selection.Html()`: the inner HTML of the element. -/
def innerHtml : Node → String
  | .text s => s
  | .elem _ _ cs => renderList cs

mutual

/-- `Selection.Text()`: concatenated text of all descendant text nodes. -/
def textContent : Node → String
  | .text s => s
  | .elem _ _ cs => textContentList cs

/-- Text of a list of nodes, in order. -/
def textContentList : List Node → String
  | [] => ""
  | n :: ns => textContent n ++ textContentList ns

end

mutual

/-- Proper descendant elements in document (pre-)order; the node set that
`Selection.Find` searches. -/
def descendantsOf : Node → List Node
  | .text _ => []
  | .elem _ _ cs => descendantsList cs

/-- Descendant elements of a list of roots, in document order. -/
def descendantsList : List Node → List Node
  | [] => []
  | n :: ns =>
    (match n with
     | .elem .. => [n]
     | .text _ => []) ++ descendantsOf n ++ descendantsList ns

end

mutual

/-- Proper descendant elements, each paired with its list of following
siblings (so that the sibling walk of the extractor can be evaluated on a
matched element). -/
def dws : Node → List (Node × List Node)
  | .text _ => []
  | .elem _ _ cs => dwsList cs

/-- Descendant elements with following siblings, for a list of roots. -/
def dwsList : List Node → List (Node × List Node)
  | [] => []
  | n :: ns =>
    (match n with
     | .elem .. => [(n, ns)]
     | .text _ => []) ++ dws n ++ dwsList ns

end

/-- `const maxDepth = 3` of scraper.go. -/
def maxDepth : Nat := 3

/-- Tag test underlying `isHeadingElement`. -/
def isHeadingTag (t : String) : Bool :=
  t == "h1" || t == "h2" || t == "h3" || t == "h4" || t == "h5" || t == "h6"

/-- `isHeadingElement`: h1-h6 check via `goquery.NodeName`. -/
def isHeadingNode (n : Node) : Bool := isHeadingTag (tagOf n)

/-- `getHeadingLevel`: 1 for h1 ... 6 for h6, 0 otherwise. -/
def getHeadingLevel (n : Node) : Nat :=
  if tagOf n == "h1" then 1
  else if tagOf n == "h2" then 2
  else if tagOf n == "h3" then 3
  else if tagOf n == "h4" then 4
  else if tagOf n == "h5" then 5
  else if tagOf n == "h6" then 6
  else 0

/-- The `contentElements` slice of `isContentElement`. -/
def contentElements : List String :=
  ["div", "section", "article", "main", "p", "pre", "code",
   "table", "ul", "ol", "dl", "blockquote", "figure", "details",
   "summary", "aside", "header", "footer", "nav"]

/-- `isContentElement`: linear scan of `contentElements` with `==`. -/
def isContentElement (name : String) : Bool :=
  contentElements.any (fun e => name == e)

/-- One comparison of the attribute loop of `isFunctionContainer`: the
attribute equals the symbol or one of its four decorated forms. -/
def attrMatchesSymbol (attr funcName : String) : Bool :=
  attr == funcName ||
  attr == funcName ++ "-method" ||
  attr == funcName ++ "-function" ||
  attr == "method-" ++ funcName ||
  attr == "function-" ++ funcName

/-- The `relevantAttrs` slice of `isFunctionContainer`: id, name,
data-function, data-method, each as supplied and lower-cased. -/
def relevantAttrs (n : Node) : List String :=
  [getAttr n "id", getAttr n "name", getAttr n "data-function", getAttr n "data-method",
   goToLower (getAttr n "id"), goToLower (getAttr n "name"),
   goToLower (getAttr n "data-function"), goToLower (getAttr n "data-method")]

/-- The attribute loop of `isFunctionContainer`. -/
def attrQualifies (n : Node) (funcName : String) : Bool :=
  (relevantAttrs n).any (fun attr => attrMatchesSymbol attr funcName)

/-- The heading scan of `isFunctionContainer`: some descendant h1-h6 whose
trimmed text equals the symbol exactly. -/
def exactHeadingInside (n : Node) (funcName : String) : Bool :=
  (descendantsOf n).any (fun h => isHeadingNode h && (goTrim (textContent h) == funcName))

/-- `isFunctionContainer`. -/
def isFunctionContainer (n : Node) (funcName : String) : Bool :=
  if !(goContains (textContent n) funcName) then false
  else if isHeadingNode n then true
  else if attrQualifies n funcName then true
  else if tagOf n == "section" || tagOf n == "div" || tagOf n == "article" then
    exactHeadingInside n funcName
  else false

/-- The sibling loop of `extractFunctionSection`: walk following sibling
elements, stop before the first heading of level at most `headingLevel`,
append each traversed sibling's inner HTML followed by a newline. -/
def headingSiblingWalk (headingLevel : Nat) : List Node → String
  | [] => ""
  | .text _ :: rest => headingSiblingWalk headingLevel rest
  | n@(.elem ..) :: rest =>
    if isHeadingNode n && decide (getHeadingLevel n ≤ headingLevel) then ""
    else innerHtml n ++ "\n" ++ headingSiblingWalk headingLevel rest

/-- Descendants matched by `s.Find("pre, code")`. -/
def preCodeDescendants (n : Node) : List Node :=
  (descendantsOf n).filter (fun c => tagOf c == "pre" || tagOf c == "code")

/-- `extractFunctionSection`, parametrised by the `maxDepth` constant. -/
def extractFunctionSectionD (md : Nat) (n : Node) (siblings : List Node)
    (funcName : String) (depth : Nat) : String :=
  if depth > md then ""
  else if isHeadingNode n && goContains (textContent n) funcName then
    "<" ++ tagOf n ++ ">" ++ innerHtml n ++ "</" ++ tagOf n ++ ">\n" ++
      headingSiblingWalk (getHeadingLevel n) siblings
  else
    joinMap (fun c => if goContains (textContent c) funcName then innerHtml c ++ "\n" else "")
      (preCodeDescendants n) ++
    (if (tagOf n == "table" || tagOf n == "ul" || tagOf n == "ol") &&
        goContains (textContent n) funcName then innerHtml n ++ "\n" else "")

/-- `extractFunctionSection` at the source's `maxDepth`. -/
def extractFunctionSection (n : Node) (siblings : List Node) (funcName : String)
    (depth : Nat) : String :=
  extractFunctionSectionD maxDepth n siblings funcName depth

/-- `extractRelevantSection`, parametrised by the `maxDepth` constant.
`s.Html()` never fails in the embedding, so the error fall-through of the
source is the `innerHtml` branch. -/
def extractRelevantSectionD (md : Nat) (n : Node) (siblings : List Node)
    (funcName : String) : String :=
  if isFunctionContainer n funcName then
    let functionSection := extractFunctionSectionD md n siblings funcName 0
    if !(functionSection == "") then functionSection
    else innerHtml n
  else
    joinMap (fun pr =>
        if isFunctionContainer pr.1 funcName then
          let sec := extractFunctionSectionD md pr.1 pr.2 funcName 0
          if !(sec == "") then sec ++ "\n\n" else ""
        else "")
      (dws n)

/-- `extractRelevantSection` at the source's `maxDepth`. -/
def extractRelevantSection (n : Node) (siblings : List Node) (funcName : String) : String :=
  extractRelevantSectionD maxDepth n siblings funcName

/-- The selector shapes registered by `ScrapeDocumentation`: tag, class,
id, and attribute-equality selectors. -/
inductive Selector where
  | tagSel (t : String)
  | clsSel (c : String)
  | idSel (i : String)
  | attrSel (k v : String)

/-- CSS matching of one selector against one node. -/
def matchesSel (sel : Selector) (n : Node) : Bool :=
  isElemNode n &&
  match sel with
  | .tagSel t => tagOf n == t
  | .clsSel c => (fieldsOf (getAttr n "class")).any (fun w => w == c)
  | .idSel i => lookupAttr n "id" == some i
  | .attrSel k v => lookupAttr n k == some v

/-- The generic `selectors` slice of `ScrapeDocumentation`. -/
def genericSelectors : List Selector :=
  [.tagSel "main", .tagSel "article", .clsSel "documentation", .clsSel "docs",
   .clsSel "content", .clsSel "main-content", .clsSel "api-docs",
   .clsSel "api-reference", .idSel "documentation", .clsSel "markdown-body",
   .attrSel "role" "main", .clsSel "api-content"]

/-- The symbol-specific selectors prepended when a symbol is given. -/
def symbolSelectors (funcName : String) : List Selector :=
  [.attrSel "id" funcName, .attrSel "id" (funcName ++ "-method"),
   .attrSel "id" (funcName ++ "-function"), .attrSel "id" ("method-" ++ funcName),
   .attrSel "id" ("function-" ++ funcName), .attrSel "name" funcName,
   .attrSel "data-function" funcName, .attrSel "data-method" funcName]

/-- The selector list in registration order. -/
def selectorList (funcName : String) : List Selector :=
  if !(funcName == "") then symbolSelectors funcName ++ genericSelectors
  else genericSelectors

/-- Output of the `OnHTML("title")` callback over the whole document. -/
def titleBuffer (doc : Node) : String :=
  joinMap (fun pr => "# " ++ textContent pr.1 ++ "\n\n")
    ((dws doc).filter (fun pr => tagOf pr.1 == "title"))

/-- Body of the per-selector `OnHTML` callback, for one matched element
with its following siblings. -/
def containerCallback (funcName : String) (pr : Node × List Node) : String :=
  if !(funcName == "") then
    if goContains (textContent pr.1) funcName then
      let extractedText := extractRelevantSection pr.1 pr.2 funcName
      if !(extractedText == "") then extractedText ++ "\n\n" else ""
    else ""
  else
    (let t := goTrim (textContent pr.1)
     if !(t == "") then t ++ "\n\n" else "") ++
    joinMap (fun c => "\n" ++ innerHtml c ++ "\n")
      ((descendantsOf pr.1).filter
        (fun c => tagOf c == "pre" || tagOf c == "code" || tagOf c == "table"))

/-- Output of the container-selector callbacks: per selector in
registration order, per matched element in document order. -/
def selectorsBuffer (doc : Node) (funcName : String) : String :=
  joinMap (fun sel => joinMap (containerCallback funcName)
      ((dws doc).filter (fun pr => matchesSel sel pr.1)))
    (selectorList funcName)

/-- Output of the `OnHTML("pre, code")` harvester callback. -/
def preCodeBuffer (doc : Node) (funcName : String) : String :=
  joinMap (fun pr =>
      if !(funcName == "") && !(goContains (textContent pr.1) funcName) then ""
      else if textContent pr.1 == "" then ""
      else "\n```\n" ++ textContent pr.1 ++ "\n```\n")
    ((dws doc).filter (fun pr => tagOf pr.1 == "pre" || tagOf pr.1 == "code"))

/-- The accumulated `content` builder after the first crawl: title
callback, then container-selector callbacks, then the pre/code harvester,
in registration order. -/
def firstPassBuffer (doc : Node) (funcName : String) : String :=
  titleBuffer doc ++ selectorsBuffer doc funcName ++ preCodeBuffer doc funcName

/-- The condition under which the wildcard callback of the second pass
hands a node to `extractRelevantSection`. -/
def fallbackHands (n : Node) (funcName : String) : Bool :=
  goContains (textContent n) funcName && isContentElement (tagOf n)

/-- The accumulated buffer of the second (fallback) crawl: the wildcard
`OnHTML("*")` callback over every element in document order. -/
def fallbackBuffer (doc : Node) (funcName : String) : String :=
  joinMap (fun pr =>
      if fallbackHands pr.1 funcName then
        let extractedText := extractRelevantSection pr.1 pr.2 funcName
        if !(extractedText == "") then extractedText ++ "\n\n" else ""
      else "")
    (dws doc)

/-- The typed failures of the extraction core (URL and fetch failures
belong to the external fetch boundary and are out of scope). -/
inductive ScrapeError where
  | symbolNotFound (funcName : String)
  | noContentExtracted
deriving DecidableEq

/-- The second-pass trigger of `ScrapeDocumentation`:
`funcName != "" && !strings.Contains(result, funcName)`. -/
def fallbackRan (doc : Node) (funcName : String) : Bool :=
  !(funcName == "") && !(goContains (firstPassBuffer doc funcName) funcName)

/-- `result` after the optional second pass. -/
def bufferAfterPasses (doc : Node) (funcName : String) : String :=
  if fallbackRan doc funcName then fallbackBuffer doc funcName
  else firstPassBuffer doc funcName

/-- The final emptiness check and error selection of
`ScrapeDocumentation`. -/
def finalCheck (result : String) (funcName : String) : Except ScrapeError String :=
  if result == "" then
    if !(funcName == "") then .error (.symbolNotFound funcName)
    else .error .noContentExtracted
  else .ok result

/-- `ScrapeDocumentation` on one successfully fetched document. -/
def scrapeDocumentation (doc : Node) (funcName : String) : Except ScrapeError String :=
  finalCheck (bufferAfterPasses doc funcName) funcName

/-- The final aggregation step as the specification words it (§4.6): the
buffer is trimmed of leading/trailing whitespace, the emptiness test is
applied to the trimmed buffer, and the trimmed buffer is returned.  Stated
from the spec's words, to be compared with `finalCheck`, which is
translated from the source. -/
def specFinalize (result : String) (funcName : String) : Except ScrapeError String :=
  let trimmed := goTrim result
  if trimmed == "" then
    if !(funcName == "") then .error (.symbolNotFound funcName)
    else .error .noContentExtracted
  else .ok trimmed

/-- The fallback trigger as the specification words it (§4.5): buffer
empty, or symbol non-empty and the text lacks the symbol.  Stated from the
spec's words, to be compared with `fallbackRan`, which is translated from
the source. -/
def specFallbackTrigger (result : String) (funcName : String) : Bool :=
  result == "" || (!(funcName == "") && !(goContains result funcName))

/-! General lemmas about the string and DOM primitives. -/

theorem listPrefixOf_iff (a b : List Char) : listPrefixOf a b = true ↔ a <+: b := by
  induction a generalizing b with
  | nil => simp [listPrefixOf]
  | cons x xs ih =>
    cases b with
    | nil => simp [listPrefixOf, List.prefix_nil]
    | cons y ys =>
      simp [listPrefixOf, List.cons_prefix_cons, ih, Bool.and_eq_true]

theorem listInfixOf_iff (a b : List Char) : listInfixOf a b = true ↔ a <:+: b := by
  induction b with
  | nil => simp [listInfixOf, listPrefixOf_iff, List.prefix_nil, List.infix_nil]
  | cons y ys ih =>
    simp [listInfixOf, Bool.or_eq_true, listPrefixOf_iff, ih, List.infix_cons_iff]

theorem goContains_iff {s sub : String} : goContains s sub = true ↔ sub.data <:+: s.data :=
  listInfixOf_iff _ _

theorem goContains_append_left (t : String) {s sub : String}
    (h : goContains s sub = true) : goContains (t ++ s) sub = true := by
  rw [goContains_iff] at h ⊢
  rw [String.data_append]
  exact h.trans (List.suffix_append _ _).isInfix

theorem goContains_append_right (t : String) {s sub : String}
    (h : goContains s sub = true) : goContains (s ++ t) sub = true := by
  rw [goContains_iff] at h ⊢
  rw [String.data_append]
  exact h.trans (List.prefix_append _ _).isInfix

theorem goContains_joinMap {α : Type} (g : α → String) {x : α} {l : List α}
    (h : x ∈ l) : goContains (joinMap g l) (g x) = true := by
  induction l with
  | nil => cases h
  | cons y ys ih =>
    rcases List.mem_cons.mp h with h | h
    · subst h
      show goContains (g x ++ joinMap g ys) (g x) = true
      rw [goContains_iff, String.data_append]
      exact (List.prefix_append _ _).isInfix
    · show goContains (g y ++ joinMap g ys) (g x) = true
      exact goContains_append_left _ (ih h)

theorem ne_empty_of_goContains {s sub : String} (h : goContains s sub = true)
    (hne : sub ≠ "") : s ≠ "" := by
  intro hs
  subst hs
  rw [goContains_iff] at h
  exact hne (String.ext (List.infix_nil.mp h))

theorem goContains_empty_left {sub : String} (h : sub ≠ "") :
    goContains "" sub = false := by
  cases hd : sub.data with
  | nil => exact absurd (String.ext hd) h
  | cons c cs =>
    show listInfixOf sub.data [] = false
    rw [hd]
    rfl

theorem goTrim_data_infix (s : String) : (goTrim s).data <:+: s.data := by
  have h1 : s.data.dropWhile Char.isWhitespace <:+ s.data := List.dropWhile_suffix _
  have h2 : ((s.data.dropWhile Char.isWhitespace).reverse.dropWhile Char.isWhitespace).reverse
      <+: (s.data.dropWhile Char.isWhitespace).reverse.reverse :=
    List.reverse_prefix.mpr (List.dropWhile_suffix _)
  rw [List.reverse_reverse] at h2
  exact h2.isInfix.trans h1.isInfix

mutual

theorem textContent_sub (m n : Node) (h : m ∈ descendantsOf n) :
    (textContent m).data <:+: (textContent n).data := by
  cases n with
  | text s => simp [descendantsOf] at h
  | elem t a cs =>
    simp only [descendantsOf, textContent]
    exact textContent_sub_list m cs h

theorem textContent_sub_list (m : Node) (l : List Node) (h : m ∈ descendantsList l) :
    (textContent m).data <:+: (textContentList l).data := by
  cases l with
  | nil => simp [descendantsList] at h
  | cons n ns =>
    simp only [descendantsList, List.mem_append] at h
    simp only [textContentList, String.data_append]
    rcases h with (h | h) | h
    · cases n with
      | text s => simp at h
      | elem t a cs =>
        simp at h
        subst h
        exact (List.prefix_append _ _).isInfix
    · exact (textContent_sub m n h).trans (List.prefix_append _ _).isInfix
    · exact (textContent_sub_list m ns h).trans (List.suffix_append _ _).isInfix

end

theorem isContentElement_iff (t : String) :
    isContentElement t = true ↔ t ∈ contentElements := by
  simp [isContentElement, List.any_eq_true]

theorem headingSiblingWalk_eq (level : Nat) (l : List Node) :
    headingSiblingWalk level l =
      joinMap (fun m => innerHtml m ++ "\n")
        ((l.filter isElemNode).takeWhile
          (fun m => !(isHeadingNode m && decide (getHeadingLevel m ≤ level)))) := by
  induction l with
  | nil => rfl
  | cons n rest ih =>
    cases n with
    | text s =>
      have hfil : List.filter isElemNode (Node.text s :: rest) =
          List.filter isElemNode rest := by
        simp [List.filter_cons, isElemNode]
      rw [hfil]
      simp only [headingSiblingWalk]
      exact ih
    | elem t a cs =>
      have hfil : List.filter isElemNode (Node.elem t a cs :: rest) =
          Node.elem t a cs :: List.filter isElemNode rest := by
        simp [List.filter_cons, isElemNode]
      rw [hfil]
      simp only [headingSiblingWalk, List.takeWhile_cons]
      cases hb : (isHeadingNode (Node.elem t a cs) &&
          decide (getHeadingLevel (Node.elem t a cs) ≤ level)) with
      | true => simp [joinMap]
      | false => simp [joinMap, ih, String.append_assoc]

/-! Claims. -/

/-- C1: for every heading node whose text contains the symbol, the section
extractor's output is that heading (re-rendered with its tag and inner
HTML) followed by the inner HTML of each following sibling element in
document order, as cut off by `takeWhile` before the first following
sibling that is a heading of level less than or equal to the starting
heading's level; every intervening sibling contributes and everything from
the boundary heading on is excluded. -/
theorem c1_heading_section_walk (n : Node) (siblings : List Node) (funcName : String)
    (hh : isHeadingNode n = true)
    (hc : goContains (textContent n) funcName = true) :
    extractFunctionSection n siblings funcName 0 =
      "<" ++ tagOf n ++ ">" ++ innerHtml n ++ "</" ++ tagOf n ++ ">\n" ++
        joinMap (fun m => innerHtml m ++ "\n")
          ((siblings.filter isElemNode).takeWhile
            (fun m => !(isHeadingNode m && decide (getHeadingLevel m ≤ getHeadingLevel n)))) := by
  have hcond : (isHeadingNode n && goContains (textContent n) funcName) = true := by
    rw [hh, hc]
    rfl
  rw [extractFunctionSection, extractFunctionSectionD]
  rw [if_neg (by decide : ¬((0 : Nat) > maxDepth)), if_pos hcond, headingSiblingWalk_eq]

def exC1Heading : Node := .elem "h2" [("id", "createUser")] [.text "createUser"]

def exC1Siblings : List Node :=
  [.elem "p" [] [.text "Creates a user."], .elem "h2" [] [.text "deleteUser"],
   .elem "p" [] [.text "after"]]

/-- Witness for C1 at the spec's own end-to-end scenario: the `h2` section
for `createUser` covers the following paragraph and stops before the
`deleteUser` heading. -/
theorem c1_heading_section_walk_witness :
    isHeadingNode exC1Heading = true ∧
    goContains (textContent exC1Heading) "createUser" = true ∧
    extractFunctionSection exC1Heading exC1Siblings "createUser" 0 =
      "<h2>createUser</h2>\nCreates a user.\n" :=
  ⟨rfl, rfl, (c1_heading_section_walk exC1Heading exC1Siblings "createUser" rfl rfl).trans rfl⟩

def exC2Doc : Node := .elem "html" [] []

/-- C2 counterexample: on a document with no extractable content and an
empty symbol, the first-pass buffer is empty and the spec-worded trigger
fires, yet the code's second pass does not run — the extraction fails
directly.  This refutes the claim that the fallback runs whenever the
buffer is empty even if the symbol is empty. -/
theorem c2_empty_symbol_counterexample :
    firstPassBuffer exC2Doc "" = "" ∧
    specFallbackTrigger (firstPassBuffer exC2Doc "") "" = true ∧
    fallbackRan exC2Doc "" = false ∧
    scrapeDocumentation exC2Doc "" = Except.error ScrapeError.noContentExtracted :=
  ⟨rfl, rfl, rfl, rfl⟩

/-- C2 (amended): the fallback pass runs if and only if the symbol is
non-empty and the first-pass text does not contain it; with an empty
symbol the fallback never runs (even on an empty buffer), and with a
non-empty symbol an empty buffer does trigger it.  The final result is
computed from the fallback buffer exactly when the trigger fired. -/
theorem c2_fallback_trigger (doc : Node) (funcName : String) :
    (fallbackRan doc funcName = true ↔
      funcName ≠ "" ∧ goContains (firstPassBuffer doc funcName) funcName = false) ∧
    (funcName = "" → fallbackRan doc funcName = false) ∧
    (funcName ≠ "" → firstPassBuffer doc funcName = "" → fallbackRan doc funcName = true) ∧
    (fallbackRan doc funcName = false →
      scrapeDocumentation doc funcName = finalCheck (firstPassBuffer doc funcName) funcName) ∧
    (fallbackRan doc funcName = true →
      scrapeDocumentation doc funcName = finalCheck (fallbackBuffer doc funcName) funcName) := by
  refine ⟨?_, ?_, ?_, ?_, ?_⟩
  · simp [fallbackRan, Bool.and_eq_true, Bool.not_eq_true']
  · intro h
    subst h
    simp [fallbackRan]
  · intro h1 h2
    have hb : (funcName == "") = false := beq_eq_false_iff_ne.mpr h1
    simp [fallbackRan, h2, goContains_empty_left h1, hb]
  · intro h
    simp [scrapeDocumentation, bufferAfterPasses, h]
  · intro h
    simp [scrapeDocumentation, bufferAfterPasses, h]

def exC2bDoc : Node := .elem "html" [] [.elem "main" [] [.text "hello"]]

/-- Witness for C2 (amended): a non-empty symbol missing from the
first-pass text triggers the fallback, and the result is then computed
from the fallback buffer. -/
theorem c2_fallback_trigger_witness :
    fallbackRan exC2bDoc "foo" = true ∧
    scrapeDocumentation exC2bDoc "foo" = finalCheck (fallbackBuffer exC2bDoc "foo") "foo" := by
  have h := (c2_fallback_trigger exC2bDoc "foo").2.2.1 (by decide) rfl
  exact ⟨h, (c2_fallback_trigger exC2bDoc "foo").2.2.2.2 h⟩

def exC3Doc : Node := .elem "html" [] [.elem "head" [] [.elem "title" [] [.text "API Docs"]]]

/-- C3 counterexample: the code returns the buffer untrimmed — here with
its trailing blank line — while the spec-worded finalisation would return
the trimmed buffer; the two differ on a reachable run. -/
theorem c3_no_trim_counterexample :
    scrapeDocumentation exC3Doc "" = Except.ok "# API Docs\n\n" ∧
    specFinalize (bufferAfterPasses exC3Doc "") "" = Except.ok "# API Docs" ∧
    ("# API Docs\n\n" : String) ≠ "# API Docs" :=
  ⟨rfl, rfl, by decide⟩

/-- C3 (amended): no trimming is applied; extraction fails exactly when
the final buffer is the empty string — with the symbol-not-found error
when the symbol is non-empty and the no-content-extracted error when it is
empty — and otherwise the buffer is returned unchanged. -/
theorem c3_final_buffer (doc : Node) (funcName : String) :
    (bufferAfterPasses doc funcName = "" → funcName ≠ "" →
      scrapeDocumentation doc funcName =
        Except.error (ScrapeError.symbolNotFound funcName)) ∧
    (bufferAfterPasses doc funcName = "" → funcName = "" →
      scrapeDocumentation doc funcName = Except.error ScrapeError.noContentExtracted) ∧
    (bufferAfterPasses doc funcName ≠ "" →
      scrapeDocumentation doc funcName = Except.ok (bufferAfterPasses doc funcName)) := by
  refine ⟨?_, ?_, ?_⟩
  · intro hb hf
    simp [scrapeDocumentation, finalCheck, hb, beq_eq_false_iff_ne.mpr hf]
  · intro hb hf
    subst hf
    simp [scrapeDocumentation, finalCheck, hb]
  · intro hb
    simp [scrapeDocumentation, finalCheck, beq_eq_false_iff_ne.mpr hb]

/-- Witness for C3 (amended): a non-empty buffer is returned unchanged. -/
theorem c3_final_buffer_witness :
    scrapeDocumentation exC3Doc "" = Except.ok (bufferAfterPasses exC3Doc "") :=
  (c3_final_buffer exC3Doc "").2.2 (by decide)

def exC4NoText : Node := .elem "div" [("id", "foo")] []

/-- C4 counterexample: a node whose `id` attribute equals the symbol but
whose text does not contain the symbol is rejected by
`isFunctionContainer` — the attribute rule is not sufficient on its own,
refuting the claim's "with no further condition". -/
theorem c4_text_gate_counterexample :
    getAttr exC4NoText "id" = "foo" ∧
    attrQualifies exC4NoText "foo" = true ∧
    isFunctionContainer exC4NoText "foo" = false :=
  ⟨rfl, rfl, rfl⟩

/-- C4 (amended): the attribute rule qualifies a node only together with
the heuristic's initial gate — if the node's text contains the symbol and
one of its id/name/data-function/data-method attributes (as supplied or
lower-cased) equals the symbol or a decorated form, the node qualifies. -/
theorem c4_attr_qualifies (n : Node) (funcName : String)
    (htext : goContains (textContent n) funcName = true)
    (hattr : attrQualifies n funcName = true) :
    isFunctionContainer n funcName = true := by
  simp [isFunctionContainer, htext, hattr]

def exC4TextDiv : Node := .elem "div" [("id", "foo")] [.text "foo docs"]

/-- Witness for C4 (amended): with the text gate satisfied, an exact `id`
match qualifies. -/
theorem c4_attr_qualifies_witness :
    goContains (textContent exC4TextDiv) "foo" = true ∧
    attrQualifies exC4TextDiv "foo" = true ∧
    isFunctionContainer exC4TextDiv "foo" = true :=
  ⟨rfl, rfl, c4_attr_qualifies exC4TextDiv "foo" rfl rfl⟩

/-- C5: for a `section`/`div`/`article` node whose relevant attributes do
not match the symbol, the container heuristic accepts it exactly when some
descendant heading's trimmed text equals the symbol exactly; the symbol
appearing merely as a substring elsewhere inside the node does not
qualify. -/
theorem c5_exact_heading (n : Node) (funcName : String)
    (htag : tagOf n = "section" ∨ tagOf n = "div" ∨ tagOf n = "article")
    (hattr : attrQualifies n funcName = false) :
    (isFunctionContainer n funcName = true ↔
      ∃ h ∈ descendantsOf n, isHeadingNode h = true ∧ goTrim (textContent h) = funcName) := by
  have hhn : isHeadingNode n = false := by
    rcases htag with h | h | h <;> simp [isHeadingNode, isHeadingTag, h]
  have htagb : (tagOf n == "section" || tagOf n == "div" || tagOf n == "article") = true := by
    rcases htag with h | h | h <;> simp [h]
  constructor
  · intro hfc
    cases hg : goContains (textContent n) funcName with
    | false =>
      rw [isFunctionContainer, hg] at hfc
      simp at hfc
    | true =>
      rw [isFunctionContainer, hg] at hfc
      simp only [Bool.not_true, Bool.false_eq_true, if_false, hhn, hattr, htagb,
        if_true] at hfc
      rw [exactHeadingInside, List.any_eq_true] at hfc
      obtain ⟨h, hmem, hp⟩ := hfc
      rw [Bool.and_eq_true] at hp
      exact ⟨h, hmem, hp.1, beq_iff_eq.mp hp.2⟩
  · rintro ⟨h, hmem, hhead, htrim⟩
    have hg : goContains (textContent n) funcName = true := by
      rw [goContains_iff]
      have h1 : funcName.data <:+: (textContent h).data := by
        rw [← htrim]
        exact goTrim_data_infix _
      exact h1.trans (textContent_sub h n hmem)
    have hex : exactHeadingInside n funcName = true := by
      rw [exactHeadingInside, List.any_eq_true]
      refine ⟨h, hmem, ?_⟩
      rw [hhead, htrim]
      simp
    simp [isFunctionContainer, hg, hhn, hattr, htagb, hex]

def exC5H3 : Node := .elem "h3" [] [.text " foo "]

def exC5Div : Node := .elem "div" [("id", "x")] [exC5H3, .elem "p" [] [.text "body"]]

/-- Witness for C5: a `div` with no matching attribute qualifies through a
descendant `h3` whose trimmed text is exactly the symbol. -/
theorem c5_exact_heading_witness :
    attrQualifies exC5Div "foo" = false ∧
    isFunctionContainer exC5Div "foo" = true :=
  ⟨rfl, (c5_exact_heading exC5Div "foo" (Or.inr (Or.inl rfl)) rfl).mpr
    ⟨exC5H3, List.Mem.head _, rfl, rfl⟩⟩

def exC6Div : Node :=
  .elem "div" [("id", "foo")] [.elem "code" [] [.text "foo()"], .elem "p" [] [.text "details"]]

/-- C6 counterexample: a non-heading container whose descendants include a
`code` element mentioning the symbol is not extracted verbatim — only the
harvested code block is returned, and the sibling paragraph content is
dropped.  This refutes the claim that the entire rendered content is
always returned for non-heading containers. -/
theorem c6_harvest_counterexample :
    isFunctionContainer exC6Div "foo" = true ∧
    isHeadingNode exC6Div = false ∧
    extractRelevantSection exC6Div [] "foo" = "foo()\n" ∧
    innerHtml exC6Div = "<code>foo()</code><p>details</p>" ∧
    ("foo()\n" : String) ≠ "<code>foo()</code><p>details</p>" :=
  ⟨rfl, rfl, rfl, rfl, by decide⟩

/-- C6 (amended): for a qualifying non-heading container the sibling-walk
logic is indeed not applied (the output is independent of the node's
following siblings), but the node's entire inner content is returned
verbatim only when the pre/code and table/list harvest of
`extractFunctionSection` comes back empty; otherwise that harvest is
returned instead. -/
theorem c6_nonheading_container (n : Node) (siblings : List Node) (funcName : String)
    (hq : isFunctionContainer n funcName = true)
    (hh : isHeadingNode n = false) :
    extractFunctionSection n siblings funcName 0 = extractFunctionSection n [] funcName 0 ∧
    extractRelevantSection n siblings funcName =
      (if extractFunctionSection n siblings funcName 0 == "" then innerHtml n
       else extractFunctionSection n siblings funcName 0) := by
  have h1 : ∀ sibs : List Node, extractFunctionSection n sibs funcName 0 =
      extractFunctionSection n [] funcName 0 := by
    intro sibs
    simp [extractFunctionSection, extractFunctionSectionD, hh]
  refine ⟨h1 siblings, ?_⟩
  simp only [extractRelevantSection, extractRelevantSectionD, extractFunctionSection, hq,
    if_true]
  cases he : (extractFunctionSectionD maxDepth n siblings funcName 0 == "") with
  | true => simp [he]
  | false => simp [he]

def exC6SpecDiv : Node :=
  .elem "div" [("id", "foo-method")]
    [.elem "h3" [] [.text "Something else"], .elem "p" [] [.text "mentions foo only once"]]

/-- Witness for C6 (amended) at the spec's own scenario: the decorated-id
container has no harvestable pre/code/table content, so its inner HTML is
returned. -/
theorem c6_nonheading_container_witness :
    isFunctionContainer exC6SpecDiv "foo" = true ∧
    isHeadingNode exC6SpecDiv = false ∧
    extractRelevantSection exC6SpecDiv [] "foo" =
      (if extractFunctionSection exC6SpecDiv [] "foo" 0 == "" then innerHtml exC6SpecDiv
       else extractFunctionSection exC6SpecDiv [] "foo" 0) :=
  ⟨rfl, rfl, (c6_nonheading_container exC6SpecDiv [] "foo" rfl rfl).2⟩

/-- C7 counterexample: the fallback whitelist accepts the chrome tags
`nav`, `header` and `footer` and rejects every heading tag, contradicting
the claim that the whitelist includes headings and excludes structural
chrome tags; a `nav` whose text mentions the symbol is handed to the
section extractor while an `h2` that mentions it is not. -/
theorem c7_whitelist_counterexample :
    fallbackHands (Node.elem "nav" [] [Node.text "documentation of foo"]) "foo" = true ∧
    fallbackHands (Node.elem "h2" [] [Node.text "foo"]) "foo" = false ∧
    isContentElement "header" = true ∧
    isContentElement "footer" = true ∧
    isContentElement "h1" = false :=
  ⟨rfl, rfl, rfl, rfl, rfl⟩

/-- C7 (amended): in the fallback pass a node is handed to the section
extractor iff its full text contains the symbol and its tag is in the
fixed `contentElements` list — a list that contains `nav`, `header` and
`footer` and no heading tag. -/
theorem c7_fallback_whitelist (n : Node) (funcName : String) :
    (fallbackHands n funcName = true ↔
      goContains (textContent n) funcName = true ∧ tagOf n ∈ contentElements) ∧
    isContentElement "nav" = true ∧ isContentElement "header" = true ∧
    isContentElement "footer" = true ∧ isContentElement "h1" = false ∧
    isContentElement "h2" = false ∧ isContentElement "h3" = false ∧
    isContentElement "h4" = false ∧ isContentElement "h5" = false ∧
    isContentElement "h6" = false := by
  refine ⟨?_, rfl, rfl, rfl, rfl, rfl, rfl, rfl, rfl, rfl⟩
  show (goContains (textContent n) funcName && isContentElement (tagOf n)) = true ↔ _
  rw [Bool.and_eq_true, isContentElement_iff]

def exC7Aside : Node := .elem "aside" [] [.text "about foo stuff"]

/-- Witness for C7 (amended): an `aside` whose text mentions the symbol is
handed to the section extractor. -/
theorem c7_fallback_whitelist_witness :
    fallbackHands exC7Aside "foo" = true :=
  (c7_fallback_whitelist exC7Aside "foo").1.mpr ⟨rfl, by decide⟩

def exC8Table : Node := .elem "table" [] [.text "foo data"]

def exC8Doc : Node := .elem "html" [] [.elem "body" [] [exC8Table]]

/-- C8 counterexample: a `table` whose text contains the symbol and that
sits outside every matched container contributes nothing in either pass —
the independent harvester only matches `pre` and `code`, so the extraction
fails outright.  This refutes the claim that the harvester independently
collects table elements. -/
theorem c8_table_counterexample :
    tagOf exC8Table = "table" ∧
    goContains (textContent exC8Table) "foo" = true ∧
    firstPassBuffer exC8Doc "foo" = "" ∧
    fallbackBuffer exC8Doc "foo" = "" ∧
    scrapeDocumentation exC8Doc "foo" = Except.error (ScrapeError.symbolNotFound "foo") :=
  ⟨rfl, rfl, rfl, rfl, rfl⟩

/-- C8 (amended): the independent harvester collects `pre` and `code`
elements only: every such element whose non-empty text contains the symbol
has its fenced text appended to the harvest segment, which follows the
title and container-section segments of the first-pass buffer. -/
theorem c8_precode_harvest (doc e : Node) (siblings : List Node) (funcName : String)
    (he : (e, siblings) ∈ dws doc)
    (ht : tagOf e = "pre" ∨ tagOf e = "code")
    (hc : goContains (textContent e) funcName = true)
    (hne : textContent e ≠ "") :
    goContains (preCodeBuffer doc funcName) ("\n```\n" ++ textContent e ++ "\n```\n") = true ∧
    firstPassBuffer doc funcName =
      titleBuffer doc ++ selectorsBuffer doc funcName ++ preCodeBuffer doc funcName ∧
    goContains (firstPassBuffer doc funcName)
      ("\n```\n" ++ textContent e ++ "\n```\n") = true := by
  have hmem : (e, siblings) ∈ (dws doc).filter
      (fun pr => tagOf pr.1 == "pre" || tagOf pr.1 == "code") := by
    refine List.mem_filter.mpr ⟨he, ?_⟩
    rcases ht with h | h <;> simp [h]
  have hval : (if !(funcName == "") && !(goContains (textContent e) funcName) then ""
      else if textContent e == "" then ""
      else "\n```\n" ++ textContent e ++ "\n```\n") =
      "\n```\n" ++ textContent e ++ "\n```\n" := by
    rw [hc, beq_eq_false_iff_ne.mpr hne]
    simp
  have h1 : goContains (preCodeBuffer doc funcName)
      ("\n```\n" ++ textContent e ++ "\n```\n") = true := by
    have hj := goContains_joinMap
      (fun pr : Node × List Node =>
        if !(funcName == "") && !(goContains (textContent pr.1) funcName) then ""
        else if textContent pr.1 == "" then ""
        else "\n```\n" ++ textContent pr.1 ++ "\n```\n") hmem
    have hj2 : goContains (preCodeBuffer doc funcName)
        (if !(funcName == "") && !(goContains (textContent e) funcName) then ""
         else if textContent e == "" then ""
         else "\n```\n" ++ textContent e ++ "\n```\n") = true := hj
    rw [hval] at hj2
    exact hj2
  refine ⟨h1, rfl, ?_⟩
  show goContains
    (titleBuffer doc ++ selectorsBuffer doc funcName ++ preCodeBuffer doc funcName) _ = true
  exact goContains_append_left _ h1

def exC8Pre : Node := .elem "pre" [] [.text "foo example"]

def exC8wDoc : Node := .elem "html" [] [exC8Pre]

/-- Witness for C8 (amended): a `pre` block mentioning the symbol lands in
the first-pass buffer as a fenced code block. -/
theorem c8_precode_harvest_witness :
    goContains (firstPassBuffer exC8wDoc "foo")
      ("\n```\n" ++ textContent exC8Pre ++ "\n```\n") = true :=
  (c8_precode_harvest exC8wDoc exC8Pre [] "foo" (List.Mem.head _) (Or.inl rfl) rfl
    (by decide)).2.2

/-- C9: the text of every `title` element is appended to the first-pass
buffer as a Markdown heading line whatever the symbol is; consequently,
with an empty symbol and a title element of non-empty text, extraction
succeeds and in particular never fails with the no-content-extracted
error. -/
theorem c9_title_appended (doc e : Node) (siblings : List Node) (funcName : String)
    (he : (e, siblings) ∈ dws doc)
    (ht : tagOf e = "title") :
    goContains (firstPassBuffer doc funcName) ("# " ++ textContent e ++ "\n\n") = true ∧
    (funcName = "" → textContent e ≠ "" →
      ∃ s, scrapeDocumentation doc funcName = Except.ok s) := by
  have hmem : (e, siblings) ∈ (dws doc).filter (fun pr => tagOf pr.1 == "title") :=
    List.mem_filter.mpr ⟨he, by simp [ht]⟩
  have h1 : goContains (titleBuffer doc) ("# " ++ textContent e ++ "\n\n") = true := by
    have hj := goContains_joinMap
      (fun pr : Node × List Node => "# " ++ textContent pr.1 ++ "\n\n") hmem
    simpa using hj
  have h2 : goContains (firstPassBuffer doc funcName)
      ("# " ++ textContent e ++ "\n\n") = true := by
    show goContains
      (titleBuffer doc ++ selectorsBuffer doc funcName ++ preCodeBuffer doc funcName) _ = true
    exact goContains_append_right _ (goContains_append_right _ h1)
  refine ⟨h2, fun hf _hne => ?_⟩
  subst hf
  have hfr : fallbackRan doc "" = false := by simp [fallbackRan]
  have hgz : goContains "" ("# " ++ textContent e ++ "\n\n") = false := rfl
  have hfp : firstPassBuffer doc "" ≠ "" := by
    intro h0
    rw [h0, hgz] at h2
    exact Bool.noConfusion h2
  refine ⟨firstPassBuffer doc "", ?_⟩
  simp [scrapeDocumentation, bufferAfterPasses, hfr, finalCheck, beq_eq_false_iff_ne.mpr hfp]

def exC9Title : Node := .elem "title" [] [.text "My API"]

def exC9Doc : Node := .elem "html" [] [.elem "head" [] [exC9Title]]

/-- Witness for C9: a titled document with an empty symbol succeeds. -/
theorem c9_title_appended_witness :
    goContains (firstPassBuffer exC9Doc "") ("# " ++ textContent exC9Title ++ "\n\n") = true ∧
    ∃ s, scrapeDocumentation exC9Doc "" = Except.ok s := by
  have h := c9_title_appended exC9Doc exC9Title [] ""
    (List.Mem.tail _ (List.Mem.head _)) rfl
  exact ⟨h.1, h.2 rfl (by decide)⟩

/-- C10: the extraction entry points call `extractFunctionSection` only at
depth 0, where the depth guard can never fire, so the output of both
section-extraction functions is independent of the `maxDepth` constant. -/
theorem c10_maxdepth_independent (md₁ md₂ : Nat) (n : Node) (siblings : List Node)
    (funcName : String) :
    extractFunctionSectionD md₁ n siblings funcName 0 =
      extractFunctionSectionD md₂ n siblings funcName 0 ∧
    extractRelevantSectionD md₁ n siblings funcName =
      extractRelevantSectionD md₂ n siblings funcName := by
  have h0 : ∀ (md : Nat) (n' : Node) (s' : List Node),
      extractFunctionSectionD md n' s' funcName 0 =
        extractFunctionSectionD 0 n' s' funcName 0 := by
    intro md n' s'
    simp only [extractFunctionSectionD]
    rw [if_neg (Nat.not_lt_zero md), if_neg (Nat.not_lt_zero 0)]
  constructor
  · rw [h0 md₁, h0 md₂]
  · simp only [extractRelevantSectionD]
    simp only [h0]

end Scrape
